import Mathlib

/-!
# Verification of the Zuul gating-pipeline model

This development embeds, in Lean 4, the parts of the repository relevant to
the frozen claims:

* the web dashboard helpers in `src/web/src/containers/build/Build.jsx`
  (`makeBuildQueryString`, the log-link computation of the `Build`
  component), translated directly from the JavaScript source;
* the gating pipeline engine described by the specification (config model,
  dependency-graph builder with DFS cycle detection, dependent-manager
  change queue with speculative execution and queue collapse, job
  scheduler state machine, result aggregator and reporter dispatcher).
  The engine's code is not part of the visible sources (only its YAML test
  fixtures are), so those definitions are modelled from the spec, and the
  fixture files `src/unnamed/part_000` and
  `src/tests/fixtures/layouts/two-projects-integrated.yaml` are embedded
  as concrete configuration data.
-/

/-! ## Job status and job nodes (spec section 4.5) -/

/-- Modelled from the spec: per-job status of a QueueItem's DAG instance,
section 3 — `waiting, runnable, running, succeeded, failed, skipped`. -/
inductive JStatus where
  | waiting
  | runnable
  | running
  | succeeded
  | failed
  | skipped
deriving DecidableEq, Repr

/-- Modelled from the spec: a node of one item's job DAG — job name, the
names of the jobs it depends on, whether the job is voting (required for
the aggregated result, section 4.6), and its current status. -/
structure JobNode where
  name : String
  dependencies : List String
  voting : Bool
  status : JStatus
deriving DecidableEq, Repr

/-- Status of the job named `n` in a job list (first match wins). -/
def statusOf (jobs : List JobNode) (n : String) : Option JStatus :=
  (jobs.find? (fun jb => jb.name == n)).map (fun jb => jb.status)

/-- Set the status of the job named `n`. -/
def setStatus (jobs : List JobNode) (n : String) (st : JStatus) : List JobNode :=
  jobs.map (fun jb => if jb.name == n then { jb with status := st } else jb)

/-- A terminal status: `succeeded`, `failed` or `skipped` (spec 4.5). -/
def isTerminal : JStatus → Bool
  | .succeeded => true
  | .failed => true
  | .skipped => true
  | _ => false

/-- Modelled from the spec: an item is complete when every job is in a
terminal state (section 4.5). -/
def allTerminal (jobs : List JobNode) : Bool :=
  jobs.all (fun jb => isTerminal jb.status)

/-- Modelled from the spec: an item is determined to fail once a required
(voting) job has failed (sections 4.4 and 4.6). -/
def determinedToFail (jobs : List JobNode) : Bool :=
  jobs.any (fun jb => jb.voting && (match jb.status with | .failed => true | _ => false))

/-- All direct dependencies of job `n` have actually reported `succeeded`
(spec 4.5: speculation never substitutes for intra-item dependency
satisfaction). -/
def depsSucceeded (jobs : List JobNode) (n : String) : Prop :=
  ∀ jb ∈ jobs, jb.name = n → ∀ d ∈ jb.dependencies, statusOf jobs d = some .succeeded

instance (jobs : List JobNode) (n : String) : Decidable (depsSucceeded jobs n) := by
  unfold depsSucceeded
  infer_instance

/-- Job `a` directly depends on job `b` inside one item's DAG. -/
def DepOn (jobs : List JobNode) (a b : String) : Prop :=
  ∃ jb ∈ jobs, jb.name = a ∧ b ∈ jb.dependencies

/-! ### Basic lemmas about status lookup and update -/

theorem setStatus_name_preserved (jb : JobNode) (n : String) (st : JStatus) :
    (if jb.name == n then { jb with status := st } else jb).name = jb.name := by
  by_cases h : jb.name == n <;> simp [h]

theorem setStatus_name_eq (jobs : List JobNode) (n : String) (st : JStatus) :
    (setStatus jobs n st).map JobNode.name = jobs.map JobNode.name := by
  induction jobs with
  | nil => rfl
  | cons jb rest ih =>
    simp only [setStatus, List.map_cons] at ih ⊢
    rw [setStatus_name_preserved, ih]

theorem find?_name_setStatus (jobs : List JobNode) (n m : String) (st : JStatus) :
    (setStatus jobs n st).find? (fun jb => jb.name == m) =
      (jobs.find? (fun jb => jb.name == m)).map
        (fun jb => if jb.name == n then { jb with status := st } else jb) := by
  unfold setStatus
  rw [List.find?_map]
  have hpred : ((fun jb : JobNode => jb.name == m) ∘
      fun jb => if jb.name == n then { jb with status := st } else jb) =
        fun jb : JobNode => jb.name == m := by
    funext jb
    simp only [Function.comp_apply, setStatus_name_preserved]
  rw [hpred]

theorem statusOf_setStatus_other (jobs : List JobNode) (n m : String) (st : JStatus)
    (h : m ≠ n) : statusOf (setStatus jobs n st) m = statusOf jobs m := by
  unfold statusOf
  rw [find?_name_setStatus]
  cases hfind : jobs.find? (fun jb => jb.name == m) with
  | none => rfl
  | some jb =>
    have hm := List.find?_some hfind
    simp only [beq_iff_eq] at hm
    simp [hm, h]

theorem statusOf_setStatus_self (jobs : List JobNode) (n : String) (st : JStatus)
    (h : (statusOf jobs n).isSome) : statusOf (setStatus jobs n st) n = some st := by
  unfold statusOf at h ⊢
  rw [find?_name_setStatus]
  cases hfind : jobs.find? (fun jb => jb.name == n) with
  | none => rw [hfind] at h; simp at h
  | some jb =>
    have hn := List.find?_some hfind
    simp only [beq_iff_eq] at hn
    simp [hn]

/-! ## Web dashboard: `makeBuildQueryString` (Build.jsx lines 319-336) -/

/-- The filter set handed to `makeBuildQueryString`: a JavaScript object,
i.e. a finite map from keys to values, or `null`/`undefined`. -/
abbrev Filters : Type := Option (List (String × String))

/-- Translated from `Build.jsx`: builds the query string for a build
listing.  `makeQueryString` is imported from `FilterToolbar` (not part of
the visible sources), so it is passed as a function argument. -/
def makeBuildQueryString (makeQueryString : Filters → String)
    (filters : Filters) (excludeResults : Bool) : String :=
  let queryString := makeQueryString filters
  let resultFilter :=
    match filters with
    | some fs => fs.any (fun kv => kv.2 == "result")
    | none => false
  let queryString :=
    if excludeResults && !resultFilter then queryString ++ "&exclude_result=SKIPPED"
    else queryString
  queryString ++ "&complete=true"

/-! ## Web dashboard: the `Build` component's log link (Build.jsx 51-54, 254-270) -/

/-- The part of the build manifest the component reads. -/
structure Manifest where
  index_links : Bool
deriving DecidableEq, Repr

/-- The part of the build object the log-link computation reads.
`log_url` is `none` when the field is undefined; `manifest` is `none`
when no manifest was fetched. -/
structure BuildObj where
  log_url : Option String
  manifest : Option Manifest
deriving DecidableEq, Repr

/-- JavaScript truthiness of an optional string: present and nonempty. -/
def jsTruthy (o : Option String) : Prop :=
  ∃ u, o = some u ∧ u ≠ ""

/-- Translated from `Build.jsx` line 51:
`const index_links = build.manifest && build.manifest.index_links`. -/
def index_links (b : BuildObj) : Bool :=
  match b.manifest with
  | some m => m.index_links
  | none => false

/-- Translated from `Build.jsx` lines 52-54:
`build.log_url ? (index_links ? build.log_url + 'index.html' : build.log_url) : ''`. -/
def build_log_url (b : BuildObj) : String :=
  match b.log_url with
  | some u => if u = "" then "" else (if index_links b then u ++ "index.html" else u)
  | none => ""

/-- Translated from `Build.jsx` lines 254-270: the `View log` external
link is rendered when `build_log_url` is truthy; otherwise the grey
`No log available` text is shown. -/
def viewLogRendered (b : BuildObj) : Prop :=
  build_log_url b ≠ ""

/-- Written from the claim's words, for comparison with the code: the log
link target is `log_url + 'index.html'` when `index_links` is truthy,
`log_url` otherwise, and `''` when `log_url` is absent. -/
def claim_build_log_url (b : BuildObj) : String :=
  match b.log_url with
  | some u => if index_links b then u ++ "index.html" else u
  | none => ""

/-! ## Result aggregation (spec section 4.6) -/

/-- Modelled from the spec: pipeline outcome kinds handled by the
reporter dispatcher (section 4.7). -/
inductive Outcome where
  | start
  | success
  | failure
  | mergeFailure
deriving DecidableEq, Repr

/-- Modelled from the spec: on item completion the Result Aggregator
computes `success` iff every required (voting) job reports `succeeded`,
otherwise `failure` (section 4.6). -/
def aggregate (jobs : List JobNode) : Outcome :=
  if jobs.all (fun jb => !jb.voting ||
      (match jb.status with | .succeeded => true | _ => false)) then .success
  else .failure

/-- Modelled from the spec: the aggregated job/result payload attached to
reports when `include-returned-data` is set — every job, voting or not,
is reported informationally (section 4.6). -/
def resultData (jobs : List JobNode) : List (String × JStatus) :=
  jobs.map (fun jb => (jb.name, jb.status))

/-! ## Reporter dispatcher (spec section 4.7) -/

/-- Modelled from the spec: per-reporter configuration — a code-review
vote (label, integer value, optional submit) or a message-bus publish
(topic with placeholders, `include-returned-data` flag). -/
inductive ReporterConfig where
  | vote (label : String) (value : Int) (submit : Bool)
  | mqtt (topic : String) (includeReturnedData : Bool)
deriving DecidableEq, Repr

/-- The context fields interpolated into a message-bus topic. -/
structure ReportCtx where
  tenant : String
  pipelineName : String
  project : String
  branch : String
deriving DecidableEq, Repr

/-- Replace every occurrence of `pat` by `rep`, scanning left to right;
the fuel bounds the number of scanning steps. -/
def replChars (pat rep : List Char) : Nat → List Char → List Char
  | 0, l => l
  | f + 1, l =>
    match l with
    | [] => []
    | c :: cs =>
      if !pat.isEmpty && pat.isPrefixOf l then rep ++ replChars pat rep f (l.drop pat.length)
      else c :: replChars pat rep f cs

/-- Replace every occurrence of the placeholder `pat` in `s` by `rep`. -/
def replaceTok (s pat rep : String) : String :=
  ⟨replChars pat.data rep.data s.data.length s.data⟩

/-- Modelled from the spec: substitute the `{tenant}`, `{pipeline}`,
`{project}` and `{branch}` placeholders of a topic string (section 4.7). -/
def interpolate (ctx : ReportCtx) (t : String) : String :=
  replaceTok (replaceTok (replaceTok (replaceTok t "{tenant}" ctx.tenant)
    "{pipeline}" ctx.pipelineName) "{project}" ctx.project) "{branch}" ctx.branch

/-- The external sink a formatted report is sent to. -/
inductive ReportTarget where
  | vote (label : String) (value : Int) (submit : Bool)
  | message (topic : String)
deriving DecidableEq, Repr

/-- Modelled from the spec: a Report — outcome kind, target reporter and
formatted payload, which may include the aggregated result data
(section 3). -/
structure Report where
  outcome : Outcome
  target : ReportTarget
  payload : Option (List (String × JStatus))
deriving DecidableEq, Repr

/-- Modelled from the spec: format one report for one configured
reporter.  A vote report carries no result payload; a message-bus report
carries the aggregated payload exactly when `include-returned-data` is
set and result data exists (section 4.7). -/
def formatReport (outcome : Outcome) (ctx : ReportCtx)
    (res : Option (List (String × JStatus))) : ReporterConfig → Report
  | .vote label value submit => ⟨outcome, .vote label value submit, none⟩
  | .mqtt topic inc => ⟨outcome, .message (interpolate ctx topic), if inc then res else none⟩

/-- Modelled from the spec: dispatch one report per configured reporter
for the given outcome (section 4.7). -/
def dispatchReports (outcome : Outcome) (ctx : ReportCtx)
    (actions : List ReporterConfig) (res : Option (List (String × JStatus))) : List Report :=
  actions.map (formatReport outcome ctx res)

/-- Modelled from the spec: the `start` dispatch happens on enqueue, when
no result data exists yet, so the payload source is `none` (section 4.7). -/
def dispatchStart (ctx : ReportCtx) (actions : List ReporterConfig) : List Report :=
  dispatchReports .start ctx actions none

/-! ## Dependent-manager change queue (spec sections 4.4, 4.5 and 5)

One `EngState` models one dependent-manager ChangeQueue together with the
append-only log of externally visible report events.  Items carry a
generation `epoch`; a job-completion callback is consumed only when its
epoch tag matches the item's current epoch, so in-flight results of a
requeued item are discarded (spec section 9). -/

/-- Modelled from the spec: a QueueItem — enqueue identifier (ids are
assigned in enqueue order), the job DAG instance with per-job status, and
the generation epoch used to discard stale executor callbacks. -/
structure QItem where
  id : Nat
  jobs : List JobNode
  epoch : Nat
deriving DecidableEq, Repr

/-- Externally visible events of one change queue, in emission order. -/
inductive Event where
  | enqueued (id : Nat)
  | reportSuccess (id : Nat)
  | reportFailure (id : Nat)
  | requeue (id : Nat)
  | removed (id : Nat)
deriving DecidableEq, Repr

/-- The state of one dependent-manager change queue: the ordered items,
the append-only event log (oldest first) and the next enqueue id. -/
structure EngState where
  queue : List QItem
  log : List Event
  nextId : Nat
deriving DecidableEq, Repr

/-- Modelled from the spec: requeue an item after a predecessor stopped
being assumed successful — its DAG instance is reset to `waiting` and its
epoch is bumped so that in-flight job results are discarded
(sections 4.4 and 9). -/
def resetItem (it : QItem) : QItem :=
  { it with jobs := it.jobs.map (fun jb => { jb with status := .waiting }),
            epoch := it.epoch + 1 }

/-- The state after the queue collapses on the failure of item `x`: `x`
reports failure and leaves the queue, and every item behind it is
requeued (spec section 4.4). -/
def collapseState (s : EngState) (l1 : List QItem) (x : QItem) (l2 : List QItem) : EngState :=
  { queue := l1 ++ l2.map resetItem,
    log := s.log ++ Event.reportFailure x.id :: l2.map (fun j => Event.requeue j.id),
    nextId := s.nextId }

/-- Update the item in the middle of a queue decomposition. -/
def midUpdate (s : EngState) (l1 : List QItem) (it : QItem) (l2 : List QItem) : EngState :=
  { queue := l1 ++ it :: l2, log := s.log, nextId := s.nextId }

/-- Modelled from the spec: the transition relation of one
dependent-manager change queue (sections 4.4 and 4.5).

* `enqueue` appends a new item at the tail with all jobs `waiting`;
* `markRunnable` makes a job runnable once all its direct dependencies
  have actually reported `succeeded` — cross-item speculation never
  substitutes for intra-item dependency satisfaction;
* `dispatch` sends a runnable job to the executor;
* `complete` consumes an executor callback whose epoch tag matches the
  item's current epoch (stale callbacks of a cancelled generation are
  ignored, so they produce no transition);
* `skip` propagates a failed or skipped direct dependency to a dependent
  that has not started running;
* `reportSuccess` reports the head item once every job is terminal and
  the aggregated result is success — only the head may report final
  success, which makes success reports follow enqueue order;
* `collapseFail` fires when an item is determined to fail: the item
  reports failure and is removed, and every item behind it is requeued;
* `remove` drops an item whose change was superseded or aborted. -/
inductive Step : EngState → EngState → Prop where
  | enqueue (s : EngState) (jobs : List JobNode)
      (hw : ∀ jb ∈ jobs, jb.status = .waiting)
      (hnd : (jobs.map JobNode.name).Nodup) :
      Step s { queue := s.queue ++ [⟨s.nextId, jobs, 0⟩],
               log := s.log ++ [.enqueued s.nextId],
               nextId := s.nextId + 1 }
  | markRunnable (s : EngState) (l1 : List QItem) (it : QItem) (l2 : List QItem) (n : String)
      (hq : s.queue = l1 ++ it :: l2)
      (hst : statusOf it.jobs n = some .waiting)
      (hdeps : depsSucceeded it.jobs n) :
      Step s (midUpdate s l1 { it with jobs := setStatus it.jobs n .runnable } l2)
  | dispatch (s : EngState) (l1 : List QItem) (it : QItem) (l2 : List QItem) (n : String)
      (hq : s.queue = l1 ++ it :: l2)
      (hst : statusOf it.jobs n = some .runnable) :
      Step s (midUpdate s l1 { it with jobs := setStatus it.jobs n .running } l2)
  | complete (s : EngState) (l1 : List QItem) (it : QItem) (l2 : List QItem) (n : String)
      (ok : Bool) (e : Nat)
      (hq : s.queue = l1 ++ it :: l2)
      (hst : statusOf it.jobs n = some .running)
      (hepoch : e = it.epoch) :
      Step s (midUpdate s l1
        { it with jobs := setStatus it.jobs n (if ok then .succeeded else .failed) } l2)
  | skip (s : EngState) (l1 : List QItem) (it : QItem) (l2 : List QItem) (n d : String)
      (hq : s.queue = l1 ++ it :: l2)
      (hst : statusOf it.jobs n = some .waiting ∨ statusOf it.jobs n = some .runnable)
      (hd : ∃ jb ∈ it.jobs, jb.name = n ∧ d ∈ jb.dependencies)
      (hdst : statusOf it.jobs d = some .failed ∨ statusOf it.jobs d = some .skipped) :
      Step s (midUpdate s l1 { it with jobs := setStatus it.jobs n .skipped } l2)
  | reportDone (s : EngState) (it : QItem) (rest : List QItem)
      (hq : s.queue = it :: rest)
      (hterm : allTerminal it.jobs = true)
      (hagg : aggregate it.jobs = .success) :
      Step s { queue := rest, log := s.log ++ [.reportSuccess it.id], nextId := s.nextId }
  | collapseFail (s : EngState) (l1 : List QItem) (x : QItem) (l2 : List QItem)
      (hq : s.queue = l1 ++ x :: l2)
      (hfail : determinedToFail x.jobs = true) :
      Step s (collapseState s l1 x l2)
  | remove (s : EngState) (l1 : List QItem) (x : QItem) (l2 : List QItem)
      (hq : s.queue = l1 ++ x :: l2) :
      Step s { queue := l1 ++ l2, log := s.log ++ [.removed x.id], nextId := s.nextId }

/-- The empty change queue. -/
def initState : EngState := ⟨[], [], 0⟩

/-- States reachable from the empty queue. -/
inductive Reachable : EngState → Prop where
  | init : Reachable initState
  | step {s s' : EngState} (h : Reachable s) (hs : Step s s') : Reachable s'

/-- An item has departed from the queue: it reported (success or failure)
or was removed. -/
def Departed (i : Nat) (log : List Event) : Prop :=
  Event.reportSuccess i ∈ log ∨ Event.reportFailure i ∈ log ∨ Event.removed i ∈ log

/-! ## Config model: job dependency graph and cycle detection (spec 4.1, 9)

A configuration's job dependency graph is an adjacency list keyed by job
name.  Cycle detection is the spec's DFS with a visiting/visited
tri-state: `gray` is the stack of nodes currently being visited, `black`
the list of finished nodes, newest first.  The DFS is fuelled; exhausted
fuel is also reported as a `ConfigError`, so a cyclic graph can never
slip through. -/

/-- Modelled from the spec: the error taxonomy of config load
(section 7) — unresolvable references and cyclic job dependency graphs
are fatal at config-load time. -/
inductive ConfigError where
  | unresolvedDependency (job dep : String)
  | cyclicDependencies (members : List String)
deriving DecidableEq, Repr

/-- A job dependency graph: job name with the names it depends on. -/
abbrev DepGraph : Type := List (String × List String)

/-- The declared job names of a graph. -/
def gNames (g : DepGraph) : List String :=
  g.map (fun p => p.1)

/-- The successors (dependencies) of a job name. -/
def gSucc (g : DepGraph) (n : String) : List String :=
  ((g.find? (fun p => p.1 == n)).map (fun p => p.2)).getD []

/-- `a` has a dependency edge to `b`. -/
def GEdge (g : DepGraph) (a b : String) : Prop :=
  b ∈ gSucc g a

/-- Modelled from the spec: a cyclic job dependency graph — some job
depends transitively on itself (sections 4.1 and 9). -/
def HasCycle (g : DepGraph) : Prop :=
  ∃ n, Relation.TransGen (GEdge g) n n

/-- Run a visitor over a list of nodes, threading the finished set and
stopping at the first error. -/
def runList (v : List String → String → Except ConfigError (List String)) :
    List String → List String → Except ConfigError (List String)
  | black, [] => .ok black
  | black, m :: ms =>
    match v black m with
    | .error e => .error e
    | .ok black' => runList v black' ms

/-- Modelled from the spec: DFS visit with visiting/visited tri-state
(white = neither list, gray = visiting, black = finished).  Hitting a
gray node reports the cycle members; finished nodes are prepended to
`black` after all successors finished (sections 4.1 and 9). -/
def visit (g : DepGraph) (fuel : Nat) (gray black : List String) (n : String) :
    Except ConfigError (List String) :=
  match fuel with
  | 0 => .error (.cyclicDependencies [])
  | f + 1 =>
    if n ∈ black then .ok black
    else if n ∈ gray then .error (.cyclicDependencies (n :: gray.takeWhile (fun x => x ≠ n)))
    else
      match runList (fun b m => visit g f (n :: gray) b m) black (gSucc g n) with
      | .error e => .error e
      | .ok black' => .ok (n :: black')

/-- Modelled from the spec: depth-first cycle check over every declared
job (sections 4.1 and 9). -/
def dfsAll (g : DepGraph) : Except ConfigError (List String) :=
  runList (fun b m => visit g (g.length + 1) [] b m) [] (gNames g)

/-- The first dependency entry naming a job absent from the job set, if
any (spec 4.1: a `dependencies` entry must name a job of the same
project's active job set). -/
def firstUnresolved (g : DepGraph) : Option (String × String) :=
  match g.find? (fun p => p.2.any (fun d => !(gNames g).contains d)) with
  | some p =>
    match p.2.find? (fun d => !(gNames g).contains d) with
    | some d => some (p.1, d)
    | none => none
  | none => none

/-- Modelled from the spec: one immutable tenant snapshot produced by a
successful config load (sections 4.1 and 9). -/
structure Snapshot where
  jobGraph : DepGraph
deriving DecidableEq, Repr

/-- Modelled from the spec: config load — resolve dependency references,
then reject cyclic dependency graphs; only then is a snapshot produced
(sections 4.1 and 7). -/
def configLoad (g : DepGraph) : Except ConfigError Snapshot :=
  match firstUnresolved g with
  | some (n, d) => .error (.unresolvedDependency n d)
  | none =>
    match dfsAll g with
    | .error e => .error e
    | .ok _ => .ok ⟨g⟩

/-- The per-tenant engine configuration state: the active snapshot. -/
structure TenantState where
  active : Option Snapshot
deriving DecidableEq, Repr

/-- Modelled from the spec: configuration reload replaces the snapshot
atomically — on `ConfigError` the whole new snapshot is rejected and the
previously active snapshot remains active unchanged (sections 3 and 7). -/
def reloadConfig (st : TenantState) (g : DepGraph) : TenantState :=
  match configLoad g with
  | .ok snap => { active := some snap }
  | .error _ => st

/-! ## Project templates and effective job lists (spec 3 and 4.1) -/

/-- Modelled from the spec: a per-pipeline job entry of a project or
template — a job name, optionally overriding the job's dependencies
(section 6: a job name or `{job-name: {dependencies: [...]}}`). -/
structure JobEntry where
  name : String
  dependencies : Option (List String)
deriving DecidableEq, Repr

/-- Modelled from the spec: a ProjectTemplate — name and per-pipeline job
lists, mergeable into a project configuration (section 3). -/
structure ProjectTemplate where
  name : String
  pipelines : List (String × List JobEntry)
deriving DecidableEq, Repr

/-- Modelled from the spec: a ProjectConfig — name, optional queue name,
included templates and per-pipeline job lists (section 3). -/
structure ProjectConfig where
  name : String
  queue : Option String
  templates : List String
  pipelines : List (String × List JobEntry)
deriving DecidableEq, Repr

/-- The job entries a pipeline-keyed job list declares for `pipeline`. -/
def jobsFor (pl : List (String × List JobEntry)) (pipeline : String) : List JobEntry :=
  ((pl.find? (fun p => p.1 == pipeline)).map (fun p => p.2)).getD []

/-- Modelled from the spec: directly declared per-job fields override
template-provided ones (section 3). -/
def mergeEntry (tmpl direct : JobEntry) : JobEntry :=
  ⟨tmpl.name, match direct.dependencies with
              | some ds => some ds
              | none => tmpl.dependencies⟩

/-- Modelled from the spec: effective per-pipeline job set = template job
lists ∪ directly declared jobs, with directly declared per-job fields
overriding template-provided ones (section 3). -/
def mergeJobs (tmpl direct : List JobEntry) : List JobEntry :=
  tmpl.map (fun e =>
    match direct.find? (fun d => d.name == e.name) with
    | some d => mergeEntry e d
    | none => e) ++
  direct.filter (fun d => !(tmpl.any (fun e => e.name == d.name)))

/-- Resolve the template references of a project, in declaration order. -/
def lookupTemplates (tmpls : List ProjectTemplate) (ns : List String) : List ProjectTemplate :=
  ns.filterMap (fun n => tmpls.find? (fun t => t.name == n))

/-- Modelled from the spec: the effective job list of one project for one
pipeline, template-included jobs first (sections 3 and 4.3). -/
def effectiveJobs (tmpls : List ProjectTemplate) (proj : ProjectConfig)
    (pipeline : String) : List JobEntry :=
  mergeJobs
    ((lookupTemplates tmpls proj.templates).flatMap (fun t => jobsFor t.pipelines pipeline))
    (jobsFor proj.pipelines pipeline)

/-- The effective per-pipeline configuration of a project: its queue name
comes from the project itself, never from a template (section 3 and the
fixture comment in `two-projects-integrated.yaml`). -/
structure EffectivePipelineConfig where
  queue : Option String
  jobs : List JobEntry
deriving DecidableEq, Repr

/-- Build the effective configuration of one project for one pipeline. -/
def effectiveConfig (tmpls : List ProjectTemplate) (proj : ProjectConfig)
    (pipeline : String) : EffectivePipelineConfig :=
  ⟨proj.queue, effectiveJobs tmpls proj pipeline⟩

/-! ## Fixture data

Embedded from `src/unnamed/part_000` (the `check` pipeline layout) and
`src/tests/fixtures/layouts/two-projects-integrated.yaml` (the two
projects sharing `queue: integrated`). -/

/-- From `src/unnamed/part_000` lines 7-12: the `start` actions of
pipeline `check` — an mqtt reporter with `include-returned-data: True`
even though no return data exists yet. -/
def checkStartActions : List ReporterConfig :=
  [.mqtt "{tenant}/zuul_start/{pipeline}/{project}/{branch}" true]

/-- From `src/unnamed/part_000` lines 13-18: the `success` actions of
pipeline `check`. -/
def checkSuccessActions : List ReporterConfig :=
  [.vote "Verified" 1 false,
   .mqtt "{tenant}/zuul_buildset/{pipeline}/{project}/{branch}" true]

/-- From `src/unnamed/part_000` lines 19-24: the `failure` actions of
pipeline `check` — a `Verified: -1` vote and an mqtt publish without
`include-returned-data`. -/
def checkFailureActions : List ReporterConfig :=
  [.vote "Verified" (-1) false,
   .mqtt "{tenant}/zuul_buildset/{pipeline}/{project}/{branch}" false]

/-- From `src/unnamed/part_000` lines 37-44: the job DAG of
`org/project` in pipeline `check` — `test` with no dependencies and
`dependent-test` depending on `test`; both jobs are voting. -/
def checkJobGraph : DepGraph :=
  [("test", []), ("dependent-test", ["test"])]

/-- The fresh DAG instance of the `org/project` check item. -/
def checkItemJobs : List JobNode :=
  [⟨"test", [], true, .waiting⟩, ⟨"dependent-test", ["test"], true, .waiting⟩]

/-- From `two-projects-integrated.yaml` lines 65-74: `project1-template`
declares job `integration` for pipelines `check` and `gate`. -/
def project1Template : ProjectTemplate :=
  ⟨"project1-template",
   [("check", [⟨"integration", none⟩]), ("gate", [⟨"integration", none⟩])]⟩

/-- From `two-projects-integrated.yaml` lines 76-80: `org/project1`
declares `queue: integrated`, references only `project1-template` and has
no local per-pipeline jobs. -/
def orgProject1 : ProjectConfig :=
  ⟨"org/project1", some "integrated", ["project1-template"], []⟩

/-- From `two-projects-integrated.yaml` lines 82-89: `org/project2`
declares `queue: integrated` with local job `integration` in `check` and
`gate`. -/
def orgProject2 : ProjectConfig :=
  ⟨"org/project2", some "integrated", [],
   [("check", [⟨"integration", none⟩]), ("gate", [⟨"integration", none⟩])]⟩

/-- The fresh DAG instance of an item of the `gate` queue `integrated`:
one voting `integration` job. -/
def gateItemJobs : List JobNode :=
  [⟨"integration", [], true, .waiting⟩]

/-! ## Correctness of the DFS cycle check

If the DFS finishes without an error, the finished list is in reverse
topological order (every node's successors appear strictly later in the
list), is duplicate-free, and contains every declared job — which is
impossible for a cyclic graph.  Hence config load rejects every cyclic
dependency graph. -/

/-- The finished list of the DFS, newest first: each element's successors
all occur in its tail. -/
def TopoList (g : DepGraph) : List String → Prop
  | [] => True
  | a :: l => (∀ b, GEdge g a b → b ∈ l) ∧ TopoList g l

theorem topoList_mem_edge (g : DepGraph) (l : List String) :
    TopoList g l → ∀ a ∈ l, ∀ b, GEdge g a b → b ∈ l := by
  induction l with
  | nil => intro _ a ha; cases ha
  | cons x l ih =>
    rintro ⟨hx, hl⟩ a ha b he
    rcases List.mem_cons.mp ha with rfl | hmem
    · exact List.mem_cons_of_mem _ (hx _ he)
    · exact List.mem_cons_of_mem _ (ih hl a hmem b he)

theorem topoList_mem_trans (g : DepGraph) (l : List String) (ht : TopoList g l)
    (a : String) (ha : a ∈ l) (b : String)
    (htr : Relation.TransGen (GEdge g) a b) : b ∈ l := by
  induction htr with
  | single h => exact topoList_mem_edge g l ht a ha _ h
  | tail _ h ih => exact topoList_mem_edge g l ht _ ih _ h

theorem topoList_no_cycle (g : DepGraph) (l : List String) :
    TopoList g l → l.Nodup → ∀ n ∈ l, ¬ Relation.TransGen (GEdge g) n n := by
  induction l with
  | nil => intro _ _ n hn; cases hn
  | cons a l ih =>
    rintro ⟨hhead, htail⟩ hnd n hn
    rw [List.nodup_cons] at hnd
    obtain ⟨ha, hndt⟩ := hnd
    rcases List.mem_cons.mp hn with rfl | hmem
    · intro hcyc
      obtain ⟨c, hc, hrest⟩ := Relation.TransGen.head'_iff.mp hcyc
      rcases Relation.reflTransGen_iff_eq_or_transGen.mp hrest with heq | htrans
      · exact ha (heq ▸ hhead _ hc)
      · exact ha (topoList_mem_trans g l htail c (hhead _ hc) n htrans)
    · exact ih htail hndt n hmem

/-- What a successful `visit` guarantees: the finished list only grows by
nodes outside the gray stack, contains the visited node, and stays in
reverse topological order without duplicates. -/
def VisitOk (g : DepGraph) (fuel : Nat) : Prop :=
  ∀ gray black n black', visit g fuel gray black n = .ok black' →
    (∃ pre, black' = pre ++ black ∧ ∀ x ∈ pre, x ∉ gray) ∧ n ∈ black' ∧
    (TopoList g black → TopoList g black') ∧ (black.Nodup → black'.Nodup)

theorem runList_ok (g : DepGraph) (fuel : Nat) (hv : VisitOk g fuel) (gray : List String) :
    ∀ ns black black',
      runList (fun b m => visit g fuel gray b m) black ns = .ok black' →
      (∃ pre, black' = pre ++ black ∧ ∀ x ∈ pre, x ∉ gray) ∧ (∀ m ∈ ns, m ∈ black') ∧
      (TopoList g black → TopoList g black') ∧ (black.Nodup → black'.Nodup) := by
  intro ns
  induction ns with
  | nil =>
    intro black black' h
    simp only [runList] at h
    cases h
    refine ⟨⟨[], rfl, ?_⟩, ?_, id, id⟩
    · intro x hx; cases hx
    · intro m hm; cases hm
  | cons m ms ih =>
    intro black black' h
    simp only [runList] at h
    cases hm : visit g fuel gray black m with
    | error e => rw [hm] at h; cases h
    | ok b1 =>
      rw [hm] at h
      obtain ⟨⟨pre1, hpre1, hg1⟩, hmem1, htopo1, hnd1⟩ := hv gray black m b1 hm
      obtain ⟨⟨pre2, hpre2, hg2⟩, hmem2, htopo2, hnd2⟩ := ih b1 black' h
      refine ⟨⟨pre2 ++ pre1, ?_, ?_⟩, ?_, fun ht => htopo2 (htopo1 ht),
        fun hn => hnd2 (hnd1 hn)⟩
      · rw [hpre2, hpre1, List.append_assoc]
      · intro x hx
        rcases List.mem_append.mp hx with hx2 | hx1
        · exact hg2 x hx2
        · exact hg1 x hx1
      · intro j hj
        rcases List.mem_cons.mp hj with rfl | hjm
        · rw [hpre2]; exact List.mem_append_right _ hmem1
        · exact hmem2 j hjm

theorem visit_ok (g : DepGraph) : ∀ fuel, VisitOk g fuel := by
  intro fuel
  induction fuel with
  | zero => intro gray black n black' h; cases h
  | succ f ih =>
    intro gray black n black' h
    simp only [visit] at h
    by_cases hb : n ∈ black
    · rw [if_pos hb] at h
      cases h
      exact ⟨⟨[], rfl, by intro x hx; cases hx⟩, hb, id, id⟩
    · rw [if_neg hb] at h
      by_cases hg : n ∈ gray
      · rw [if_pos hg] at h; cases h
      · rw [if_neg hg] at h
        cases hrun : runList (fun b m => visit g f (n :: gray) b m) black (gSucc g n) with
        | error e => rw [hrun] at h; cases h
        | ok b1 =>
          rw [hrun] at h
          cases h
          obtain ⟨⟨pre, hpre, hgpre⟩, hsucc, htopo, hnd⟩ :=
            runList_ok g f ih (n :: gray) (gSucc g n) black b1 hrun
          have hnpre : n ∉ pre := fun hmem => hgpre n hmem (List.mem_cons_self n gray)
          have hnb1 : n ∉ b1 := by
            rw [hpre]
            intro hmem
            rcases List.mem_append.mp hmem with h1 | h2
            · exact hnpre h1
            · exact hb h2
          refine ⟨⟨n :: pre, by simp [hpre], ?_⟩, List.mem_cons_self n b1, ?_, ?_⟩
          · intro x hx
            rcases List.mem_cons.mp hx with rfl | hxp
            · exact hg
            · exact fun hxg => hgpre x hxp (List.mem_cons_of_mem n hxg)
          · intro ht
            exact ⟨fun b hedge => hsucc b hedge, htopo ht⟩
          · intro hndb
            exact List.nodup_cons.mpr ⟨hnb1, hnd hndb⟩

theorem gEdge_mem_names (g : DepGraph) (a b : String) (h : GEdge g a b) : a ∈ gNames g := by
  unfold GEdge gSucc at h
  cases hfind : g.find? (fun p => p.1 == a) with
  | none => rw [hfind] at h; cases h
  | some p =>
    have hp := List.mem_of_find?_eq_some hfind
    have hpa := List.find?_some hfind
    simp only [beq_iff_eq] at hpa
    unfold gNames
    exact hpa ▸ List.mem_map_of_mem (fun q => q.1) hp

theorem dfsAll_ok_no_cycle (g : DepGraph) (black : List String)
    (h : dfsAll g = .ok black) : ¬ HasCycle g := by
  unfold dfsAll at h
  obtain ⟨⟨pre, hpre, _⟩, hmem, htopo, hnd⟩ :=
    runList_ok g (g.length + 1) (visit_ok g (g.length + 1)) [] (gNames g) [] black h
  rintro ⟨n, hcyc⟩
  have hn : n ∈ gNames g := by
    obtain ⟨c, hc, _⟩ := Relation.TransGen.head'_iff.mp hcyc
    exact gEdge_mem_names g n c hc
  exact topoList_no_cycle g black (htopo trivial) (hnd List.nodup_nil) n (hmem n hn) hcyc

theorem configLoad_cyclic_error (g : DepGraph) (h : HasCycle g) :
    ∃ e, configLoad g = .error e := by
  unfold configLoad
  cases hu : firstUnresolved g with
  | some p => exact ⟨.unresolvedDependency p.1 p.2, rfl⟩
  | none =>
    cases hd : dfsAll g with
    | error e => exact ⟨e, rfl⟩
    | ok black => exact absurd h (dfsAll_ok_no_cycle g black hd)

/-! ## Queue invariants

The reachable states of a dependent-manager change queue satisfy: item
ids are strictly increasing along the queue (enqueue order), ids are
fresh, an item still in the queue has never reported success, every
enqueued id is either still queued or has departed with a logged event,
and inside every item a job is only past `waiting` when its direct
dependencies have actually succeeded. -/

/-- The ids an event mentions. -/
def eventIds : Event → List Nat
  | .enqueued i => [i]
  | .reportSuccess i => [i]
  | .reportFailure i => [i]
  | .requeue i => [i]
  | .removed i => [i]

/-- A job status past `waiting`: the job was made runnable, dispatched,
or finished running. -/
def ActiveStatus (st : JStatus) : Prop :=
  st = .runnable ∨ st = .running ∨ st = .succeeded ∨ st = .failed

/-- Within one item: every job whose status is past `waiting` had all its
direct dependencies actually `succeeded` (spec 4.5). -/
def ActiveDeps (jobs : List JobNode) : Prop :=
  ∀ jb ∈ jobs, ActiveStatus jb.status → ∀ d ∈ jb.dependencies, statusOf jobs d = some .succeeded

/-- The inductive invariant of reachable queue states. -/
structure QInv (s : EngState) : Prop where
  sorted : (s.queue.map QItem.id).Pairwise (fun a b => a < b)
  idsLt : ∀ it ∈ s.queue, it.id < s.nextId
  logLt : ∀ e ∈ s.log, ∀ i ∈ eventIds e, i < s.nextId
  noSuccess : ∀ it ∈ s.queue, Event.reportSuccess it.id ∉ s.log
  departed : ∀ i, Event.enqueued i ∈ s.log → i ∈ s.queue.map QItem.id ∨ Departed i s.log
  items : ∀ it ∈ s.queue, (it.jobs.map JobNode.name).Nodup ∧ ActiveDeps it.jobs

theorem departed_mono (i : Nat) (l tl : List Event) (h : Departed i l) :
    Departed i (l ++ tl) := by
  rcases h with h | h | h
  · exact Or.inl (List.mem_append_left tl h)
  · exact Or.inr (Or.inl (List.mem_append_left tl h))
  · exact Or.inr (Or.inr (List.mem_append_left tl h))

theorem statusOf_eq_of_mem_nodup (jobs : List JobNode)
    (hnd : (jobs.map JobNode.name).Nodup) (jb : JobNode) (hm : jb ∈ jobs) :
    statusOf jobs jb.name = some jb.status := by
  induction jobs with
  | nil => cases hm
  | cons x rest ih =>
    rw [List.map_cons, List.nodup_cons] at hnd
    obtain ⟨hx, hndr⟩ := hnd
    rcases List.mem_cons.mp hm with rfl | hmem
    · unfold statusOf
      rw [List.find?_cons_of_pos _ (by simp)]
      rfl
    · have hne : (x.name == jb.name) = false := by
        rw [beq_eq_false_iff_ne]
        exact fun he => hx (he ▸ List.mem_map_of_mem JobNode.name hmem)
      unfold statusOf
      rw [List.find?_cons_of_neg _ (by simp [hne])]
      exact ih hndr hmem

theorem statusOf_some_elim (jobs : List JobNode) (c : String) (st : JStatus)
    (h : statusOf jobs c = some st) : ∃ jc ∈ jobs, jc.name = c ∧ jc.status = st := by
  unfold statusOf at h
  cases hfind : jobs.find? (fun jb => jb.name == c) with
  | none => rw [hfind] at h; cases h
  | some jc =>
    rw [hfind] at h
    simp only [Option.map] at h
    have hname := List.find?_some hfind
    simp only [beq_iff_eq] at hname
    exact ⟨jc, List.mem_of_find?_eq_some hfind, hname, by injection h⟩

theorem activeDeps_of_waiting (jobs : List JobNode)
    (hw : ∀ jb ∈ jobs, jb.status = .waiting) : ActiveDeps jobs := by
  intro jb hm hact
  rw [hw jb hm] at hact
  rcases hact with h | h | h | h <;> cases h

theorem activeDeps_setStatus (jobs : List JobNode) (n : String) (st' : JStatus)
    (had : ActiveDeps jobs) (st0 : JStatus) (hst0 : statusOf jobs n = some st0)
    (hne : st0 ≠ .succeeded) (hnew : ActiveStatus st' → depsSucceeded jobs n) :
    ActiveDeps (setStatus jobs n st') := by
  intro jb' hm' hact' d hd'
  unfold setStatus at hm'
  obtain ⟨jb, hjb, hfeq⟩ := List.mem_map.mp hm'
  by_cases hn : jb.name == n
  · have hname : jb.name = n := beq_iff_eq.mp hn
    have hjb' : jb' = { jb with status := st' } := by rw [← hfeq, if_pos hn]
    rw [hjb'] at hact' hd'
    have hds := hnew hact' jb hjb hname d hd'
    have hdn : d ≠ n := by
      intro he
      rw [he, hst0] at hds
      exact hne (by injection hds)
    rw [statusOf_setStatus_other jobs n d st' hdn]
    exact hds
  · have hjb' : jb' = jb := by rw [← hfeq, if_neg hn]
    rw [hjb'] at hact' hd'
    have hds := had jb hjb hact' d hd'
    have hdn : d ≠ n := by
      intro he
      rw [he, hst0] at hds
      exact hne (by injection hds)
    rw [statusOf_setStatus_other jobs n d st' hdn]
    exact hds

theorem depsSucceeded_of_active (jobs : List JobNode)
    (hnd : (jobs.map JobNode.name).Nodup) (had : ActiveDeps jobs) (n : String)
    (st0 : JStatus) (hst0 : statusOf jobs n = some st0) (hact : ActiveStatus st0) :
    depsSucceeded jobs n := by
  intro jb hjb hname d hd
  have hmm := statusOf_eq_of_mem_nodup jobs hnd jb hjb
  rw [hname, hst0] at hmm
  have hst : st0 = jb.status := by injection hmm
  exact had jb hjb (hst ▸ hact) d hd

theorem inv_midUpdate (s : EngState) (l1 : List QItem) (it : QItem) (l2 : List QItem)
    (hq : s.queue = l1 ++ it :: l2) (hinv : QInv s) (jobs' : List JobNode)
    (hnames : jobs'.map JobNode.name = it.jobs.map JobNode.name)
    (hdeps' : ActiveDeps jobs') :
    QInv (midUpdate s l1 { it with jobs := jobs' } l2) := by
  have hit : it ∈ s.queue := by rw [hq]; exact List.mem_append_right l1 (List.mem_cons_self it l2)
  have hids : (midUpdate s l1 { it with jobs := jobs' } l2).queue.map QItem.id =
      s.queue.map QItem.id := by
    rw [hq]; simp [midUpdate]
  have hmem : ∀ y ∈ (midUpdate s l1 { it with jobs := jobs' } l2).queue,
      y = { it with jobs := jobs' } ∨ y ∈ s.queue := by
    intro y hy
    simp only [midUpdate, List.mem_append, List.mem_cons] at hy
    rcases hy with hy | hy | hy
    · exact Or.inr (by rw [hq]; exact List.mem_append_left _ hy)
    · exact Or.inl hy
    · exact Or.inr (by rw [hq]; exact List.mem_append_right _ (List.mem_cons_of_mem it hy))
  constructor
  · rw [hids]; exact hinv.sorted
  · intro y hy
    rcases hmem y hy with rfl | hy2
    · exact hinv.idsLt it hit
    · exact hinv.idsLt y hy2
  · exact hinv.logLt
  · intro y hy
    rcases hmem y hy with rfl | hy2
    · exact hinv.noSuccess it hit
    · exact hinv.noSuccess y hy2
  · intro i hi
    rcases hinv.departed i hi with h | h
    · exact Or.inl (by rw [hids]; exact h)
    · exact Or.inr h
  · intro y hy
    rcases hmem y hy with rfl | hy2
    · refine ⟨?_, hdeps'⟩
      have := (hinv.items it hit).1
      simpa [hnames] using this
    · exact hinv.items y hy2

theorem map_id_reset (l : List QItem) :
    (l.map resetItem).map QItem.id = l.map QItem.id := by
  rw [List.map_map]
  apply List.map_congr_left
  intro a _
  rfl

theorem resetJobs_names (jobs : List JobNode) :
    (jobs.map (fun jb => { jb with status := JStatus.waiting })).map JobNode.name =
      jobs.map JobNode.name := by
  rw [List.map_map]
  apply List.map_congr_left
  intro a _
  rfl

theorem qinv_step {s s' : EngState} (hinv : QInv s) (hstep : Step s s') : QInv s' := by
  cases hstep with
  | enqueue jobs hw hnd =>
    constructor
    · rw [List.map_append]
      refine List.pairwise_append.mpr ⟨hinv.sorted, List.pairwise_singleton _ _, ?_⟩
      intro a ha b hb
      simp only [List.map_cons, List.map_nil, List.mem_singleton] at hb
      obtain ⟨it, hit, rfl⟩ := List.mem_map.mp ha
      rw [hb]
      exact hinv.idsLt it hit
    · intro y hy
      rcases List.mem_append.mp hy with hy | hy
      · exact Nat.lt_succ_of_lt (hinv.idsLt y hy)
      · rw [List.mem_singleton.mp hy]
        exact Nat.lt_succ_self _
    · intro e he i hi
      rcases List.mem_append.mp he with he | he
      · exact Nat.lt_succ_of_lt (hinv.logLt e he i hi)
      · rw [List.mem_singleton.mp he] at hi
        simp only [eventIds, List.mem_singleton] at hi
        rw [hi]
        exact Nat.lt_succ_self _
    · intro y hy hmem
      rcases List.mem_append.mp hmem with hm | hm
      · rcases List.mem_append.mp hy with hy2 | hy2
        · exact hinv.noSuccess y hy2 hm
        · rw [List.mem_singleton.mp hy2] at hm
          exact absurd (hinv.logLt _ hm s.nextId (by simp [eventIds])) (Nat.lt_irrefl _)
      · exact Event.noConfusion (List.mem_singleton.mp hm)
    · intro i hi
      rcases List.mem_append.mp hi with hi | hi
      · rcases hinv.departed i hi with h | h
        · left
          rw [List.map_append]
          exact List.mem_append_left _ h
        · exact Or.inr (departed_mono i s.log _ h)
      · left
        have hieq : i = s.nextId := by
          have := List.mem_singleton.mp hi
          injection this
        rw [hieq, List.map_append]
        exact List.mem_append_right _ (by simp)
    · intro y hy
      rcases List.mem_append.mp hy with hy | hy
      · exact hinv.items y hy
      · rw [List.mem_singleton.mp hy]
        exact ⟨hnd, activeDeps_of_waiting jobs hw⟩
  | markRunnable l1 it l2 n hq hst hdeps =>
    have hit : it ∈ s.queue := by
      rw [hq]; exact List.mem_append_right l1 (List.mem_cons_self it l2)
    obtain ⟨hnd, had⟩ := hinv.items it hit
    exact inv_midUpdate s l1 it l2 hq hinv _ (setStatus_name_eq it.jobs n .runnable)
      (activeDeps_setStatus it.jobs n .runnable had .waiting hst (by decide) (fun _ => hdeps))
  | dispatch l1 it l2 n hq hst =>
    have hit : it ∈ s.queue := by
      rw [hq]; exact List.mem_append_right l1 (List.mem_cons_self it l2)
    obtain ⟨hnd, had⟩ := hinv.items it hit
    exact inv_midUpdate s l1 it l2 hq hinv _ (setStatus_name_eq it.jobs n .running)
      (activeDeps_setStatus it.jobs n .running had .runnable hst (by decide)
        (fun _ => depsSucceeded_of_active it.jobs hnd had n .runnable hst (Or.inl rfl)))
  | complete l1 it l2 n ok e hq hst hepoch =>
    have hit : it ∈ s.queue := by
      rw [hq]; exact List.mem_append_right l1 (List.mem_cons_self it l2)
    obtain ⟨hnd, had⟩ := hinv.items it hit
    exact inv_midUpdate s l1 it l2 hq hinv _ (setStatus_name_eq it.jobs n _)
      (activeDeps_setStatus it.jobs n _ had .running hst (by decide)
        (fun _ => depsSucceeded_of_active it.jobs hnd had n .running hst (Or.inr (Or.inl rfl))))
  | skip l1 it l2 n d hq hst hd hdst =>
    have hit : it ∈ s.queue := by
      rw [hq]; exact List.mem_append_right l1 (List.mem_cons_self it l2)
    obtain ⟨hnd, had⟩ := hinv.items it hit
    have hsome : ∃ st0, statusOf it.jobs n = some st0 ∧ st0 ≠ .succeeded := by
      rcases hst with h | h
      · exact ⟨.waiting, h, by decide⟩
      · exact ⟨.runnable, h, by decide⟩
    obtain ⟨st0, hst0, hne0⟩ := hsome
    exact inv_midUpdate s l1 it l2 hq hinv _ (setStatus_name_eq it.jobs n .skipped)
      (activeDeps_setStatus it.jobs n .skipped had st0 hst0 hne0
        (fun h => absurd h (by simp [ActiveStatus])))
  | reportDone it rest hq hterm hagg =>
    have hit : it ∈ s.queue := by rw [hq]; exact List.mem_cons_self it rest
    have hsorted := hinv.sorted
    rw [hq, List.map_cons] at hsorted
    obtain ⟨hlt, hrest⟩ := List.pairwise_cons.mp hsorted
    constructor
    · exact hrest
    · intro y hy
      exact hinv.idsLt y (by rw [hq]; exact List.mem_cons_of_mem it hy)
    · intro e he i hi
      rcases List.mem_append.mp he with he | he
      · exact hinv.logLt e he i hi
      · rw [List.mem_singleton.mp he] at hi
        simp only [eventIds, List.mem_singleton] at hi
        rw [hi]
        exact hinv.idsLt it hit
    · intro y hy hmem
      rcases List.mem_append.mp hmem with hm | hm
      · exact hinv.noSuccess y (by rw [hq]; exact List.mem_cons_of_mem it hy) hm
      · have heq := List.mem_singleton.mp hm
        have hid : y.id = it.id := by injection heq
        have hlt2 : it.id < y.id := hlt y.id (List.mem_map_of_mem QItem.id hy)
        rw [hid] at hlt2
        exact Nat.lt_irrefl _ hlt2
    · intro i hi
      rcases List.mem_append.mp hi with hi | hi
      · rcases hinv.departed i hi with h | h
        · rw [hq, List.map_cons, List.mem_cons] at h
          rcases h with heq | h
          · exact Or.inr (Or.inl (by
              rw [heq]
              exact List.mem_append_right _ (List.mem_singleton_self _)))
          · exact Or.inl h
        · exact Or.inr (departed_mono i s.log _ h)
      · exact Event.noConfusion (List.mem_singleton.mp hi)
    · intro y hy
      exact hinv.items y (by rw [hq]; exact List.mem_cons_of_mem it hy)
  | collapseFail l1 x l2 hq hfail =>
    have hx : x ∈ s.queue := by
      rw [hq]; exact List.mem_append_right l1 (List.mem_cons_self x l2)
    have hmeml2 : ∀ j ∈ l2, j ∈ s.queue := by
      intro j hj
      rw [hq]; exact List.mem_append_right _ (List.mem_cons_of_mem x hj)
    have hmeml1 : ∀ j ∈ l1, j ∈ s.queue := by
      intro j hj
      rw [hq]; exact List.mem_append_left _ hj
    have hids : (collapseState s l1 x l2).queue.map QItem.id =
        l1.map QItem.id ++ l2.map QItem.id := by
      simp only [collapseState, List.map_append, map_id_reset]
    have hsorted := hinv.sorted
    rw [hq, List.map_append, List.map_cons] at hsorted
    constructor
    · rw [hids]
      exact hsorted.sublist
        (((l2.map QItem.id).sublist_cons_self x.id).append_left (l1.map QItem.id))
    · intro y hy
      simp only [collapseState, List.mem_append] at hy
      rcases hy with hy | hy
      · exact hinv.idsLt y (hmeml1 y hy)
      · obtain ⟨j, hj, rfl⟩ := List.mem_map.mp hy
        exact hinv.idsLt j (hmeml2 j hj)
    · intro e he i hi
      simp only [collapseState, List.mem_append, List.mem_cons] at he
      rcases he with he | he | he
      · exact hinv.logLt e he i hi
      · rw [he] at hi
        simp only [eventIds, List.mem_singleton] at hi
        rw [hi]
        exact hinv.idsLt x hx
      · obtain ⟨j, hj, rfl⟩ := List.mem_map.mp he
        simp only [eventIds, List.mem_singleton] at hi
        rw [hi]
        exact hinv.idsLt j (hmeml2 j hj)
    · intro y hy hmem
      simp only [collapseState, List.mem_append, List.mem_cons] at hmem hy
      rcases hmem with hm | hm | hm
      · rcases hy with hy | hy
        · exact hinv.noSuccess y (hmeml1 y hy) hm
        · obtain ⟨j, hj, rfl⟩ := List.mem_map.mp hy
          exact hinv.noSuccess j (hmeml2 j hj) hm
      · exact Event.noConfusion hm
      · obtain ⟨j, hj, heq⟩ := List.mem_map.mp hm
        exact Event.noConfusion heq
    · intro i hi
      simp only [collapseState, List.mem_append, List.mem_cons] at hi
      rcases hi with hi | hi | hi
      · rcases hinv.departed i hi with h | h
        · rw [hq, List.map_append, List.map_cons, List.mem_append, List.mem_cons] at h
          rcases h with h | h | h
          · exact Or.inl (by rw [hids]; exact List.mem_append_left _ h)
          · refine Or.inr (Or.inr (Or.inl ?_))
            rw [h]
            exact List.mem_append_right _ (List.mem_cons_self _ _)
          · exact Or.inl (by rw [hids]; exact List.mem_append_right _ h)
        · exact Or.inr (departed_mono i s.log _ h)
      · exact Event.noConfusion hi
      · obtain ⟨j, hj, heq⟩ := List.mem_map.mp hi
        exact Event.noConfusion heq
    · intro y hy
      simp only [collapseState, List.mem_append] at hy
      rcases hy with hy | hy
      · exact hinv.items y (hmeml1 y hy)
      · obtain ⟨j, hj, rfl⟩ := List.mem_map.mp hy
        constructor
        · have hold := (hinv.items j (hmeml2 j hj)).1
          show ((j.jobs.map (fun jb => { jb with status := JStatus.waiting })).map JobNode.name).Nodup
          rw [resetJobs_names]
          exact hold
        · apply activeDeps_of_waiting
          intro jb hjb
          obtain ⟨jb0, _, rfl⟩ := List.mem_map.mp hjb
          rfl
  | remove l1 x l2 hq =>
    have hx : x ∈ s.queue := by
      rw [hq]; exact List.mem_append_right l1 (List.mem_cons_self x l2)
    have hmeml2 : ∀ j ∈ l2, j ∈ s.queue := by
      intro j hj
      rw [hq]; exact List.mem_append_right _ (List.mem_cons_of_mem x hj)
    have hmeml1 : ∀ j ∈ l1, j ∈ s.queue := by
      intro j hj
      rw [hq]; exact List.mem_append_left _ hj
    have hsorted := hinv.sorted
    rw [hq, List.map_append, List.map_cons] at hsorted
    constructor
    · rw [List.map_append]
      exact hsorted.sublist
        (((l2.map QItem.id).sublist_cons_self x.id).append_left (l1.map QItem.id))
    · intro y hy
      rcases List.mem_append.mp hy with hy | hy
      · exact hinv.idsLt y (hmeml1 y hy)
      · exact hinv.idsLt y (hmeml2 y hy)
    · intro e he i hi
      rcases List.mem_append.mp he with he | he
      · exact hinv.logLt e he i hi
      · rw [List.mem_singleton.mp he] at hi
        simp only [eventIds, List.mem_singleton] at hi
        rw [hi]
        exact hinv.idsLt x hx
    · intro y hy hmem
      rcases List.mem_append.mp hmem with hm | hm
      · rcases List.mem_append.mp hy with hy | hy
        · exact hinv.noSuccess y (hmeml1 y hy) hm
        · exact hinv.noSuccess y (hmeml2 y hy) hm
      · exact Event.noConfusion (List.mem_singleton.mp hm)
    · intro i hi
      rcases List.mem_append.mp hi with hi | hi
      · rcases hinv.departed i hi with h | h
        · rw [hq, List.map_append, List.map_cons, List.mem_append, List.mem_cons] at h
          rcases h with h | h | h
          · exact Or.inl (by rw [List.map_append]; exact List.mem_append_left _ h)
          · refine Or.inr (Or.inr (Or.inr ?_))
            rw [h]
            exact List.mem_append_right _ (List.mem_singleton_self _)
          · exact Or.inl (by rw [List.map_append]; exact List.mem_append_right _ h)
        · exact Or.inr (departed_mono i s.log _ h)
      · exact Event.noConfusion (List.mem_singleton.mp hi)
    · intro y hy
      rcases List.mem_append.mp hy with hy | hy
      · exact hinv.items y (hmeml1 y hy)
      · exact hinv.items y (hmeml2 y hy)

theorem qinv_init : QInv initState :=
  ⟨List.Pairwise.nil,
   fun y hy => absurd hy (List.not_mem_nil y),
   fun e he => absurd he (List.not_mem_nil e),
   fun y hy => absurd hy (List.not_mem_nil y),
   fun _ hi => absurd hi (List.not_mem_nil _),
   fun y hy => absurd hy (List.not_mem_nil y)⟩

theorem reachable_qinv {s : EngState} (h : Reachable s) : QInv s := by
  induction h with
  | init => exact qinv_init
  | step _ hs ih => exact qinv_step ih hs

/-! ## Transitive dependents of a failed job -/

theorem activeDeps_trans_succeeded (jobs : List JobNode)
    (hnd : (jobs.map JobNode.name).Nodup) (had : ActiveDeps jobs) (a b : String)
    (htr : Relation.TransGen (DepOn jobs) a b) :
    ∀ jb ∈ jobs, jb.name = a → ActiveStatus jb.status →
      statusOf jobs b = some .succeeded := by
  induction htr using Relation.TransGen.head_induction_on with
  | base hedge =>
    intro jb hjb hname hact
    obtain ⟨jb2, hjb2, hname2, hdep2⟩ := hedge
    have h1 := statusOf_eq_of_mem_nodup jobs hnd jb hjb
    have h2 := statusOf_eq_of_mem_nodup jobs hnd jb2 hjb2
    rw [hname] at h1
    rw [hname2] at h2
    rw [h1] at h2
    have hsteq : jb.status = jb2.status := by injection h2
    exact had jb2 hjb2 (hsteq ▸ hact) b hdep2
  | ih hedge _ ihp =>
    intro jb hjb hname hact
    obtain ⟨jb2, hjb2, hname2, hdep2⟩ := hedge
    have h1 := statusOf_eq_of_mem_nodup jobs hnd jb hjb
    have h2 := statusOf_eq_of_mem_nodup jobs hnd jb2 hjb2
    rw [hname] at h1
    rw [hname2] at h2
    rw [h1] at h2
    have hsteq : jb.status = jb2.status := by injection h2
    have hc : statusOf jobs _ = some .succeeded := had jb2 hjb2 (hsteq ▸ hact) _ hdep2
    obtain ⟨jc, hjc, hcname, hcstatus⟩ := statusOf_some_elim jobs _ _ hc
    exact ihp jc hjc hcname (by rw [hcstatus]; exact Or.inr (Or.inr (Or.inl rfl)))

/-! ## Claim theorems -/

/-- C5: for every configuration input whose job dependencies form a cycle,
config load fails with a `ConfigError`, the new tenant snapshot is not
installed, and the previously active snapshot remains active unchanged. -/
theorem c5_cyclic_config_rejected (g : DepGraph) (h : HasCycle g) :
    (∃ e, configLoad g = .error e) ∧ ∀ st : TenantState, reloadConfig st g = st := by
  obtain ⟨e, he⟩ := configLoad_cyclic_error g h
  refine ⟨⟨e, he⟩, ?_⟩
  intro st
  unfold reloadConfig
  rw [he]

/-- The two-job cycle of the claim: `jobA` depends on `jobB` and `jobB`
depends on `jobA`. -/
def cyclicG : DepGraph := [("jobA", ["jobB"]), ("jobB", ["jobA"])]

theorem c5_witness :
    (∃ e, configLoad cyclicG = .error e) ∧
      ∀ st : TenantState, reloadConfig st cyclicG = st :=
  c5_cyclic_config_rejected cyclicG
    ⟨"jobA",
     Relation.TransGen.tail
       (Relation.TransGen.single (show GEdge cyclicG "jobA" "jobB" by
         unfold GEdge gSucc; decide))
       (show GEdge cyclicG "jobB" "jobA" by unfold GEdge gSucc; decide)⟩

/-- The acyclic check-pipeline job graph of the fixture loads fine: the
cycle check is not vacuous. -/
theorem configLoad_check_fixture_ok : ∃ snap, configLoad checkJobGraph = .ok snap :=
  ⟨⟨checkJobGraph⟩, rfl⟩

/-- C6: a project that declares no local per-pipeline jobs and references
only one project-template gets exactly the template's job set, while the
project's own queue name is still applied. -/
theorem c6_template_only_roundtrip (tmpls : List ProjectTemplate) (proj : ProjectConfig)
    (pipeline : String) (t : ProjectTemplate)
    (hnolocal : jobsFor proj.pipelines pipeline = [])
    (ht : lookupTemplates tmpls proj.templates = [t]) :
    (effectiveConfig tmpls proj pipeline).jobs = jobsFor t.pipelines pipeline ∧
    (effectiveConfig tmpls proj pipeline).queue = proj.queue := by
  constructor
  · show effectiveJobs tmpls proj pipeline = _
    unfold effectiveJobs
    rw [ht, hnolocal]
    unfold mergeJobs
    simp
  · rfl

/-- The template list of the `two-projects-integrated` fixture. -/
def integratedTemplates : List ProjectTemplate := [project1Template]

theorem c6_witness :
    (effectiveConfig integratedTemplates orgProject1 "gate").jobs =
      [⟨"integration", none⟩] ∧
    (effectiveConfig integratedTemplates orgProject1 "gate").queue = some "integrated" := by
  have h := c6_template_only_roundtrip integratedTemplates orgProject1 "gate"
    project1Template rfl rfl
  exact ⟨h.1.trans (by decide), h.2⟩

/-- C7: a `start` action with `include-returned-data: true` is accepted —
dispatch produces one report per configured reporter, never an error, and
the start report's payload is empty since no result data exists yet. -/
theorem c7_start_include_returned_data (ctx : ReportCtx) (actions : List ReporterConfig)
    (topic : String) (h : ReporterConfig.mqtt topic true ∈ actions) :
    (dispatchStart ctx actions).length = actions.length ∧
    Report.mk .start (.message (interpolate ctx topic)) none ∈ dispatchStart ctx actions ∧
    ∀ r ∈ dispatchStart ctx actions, r.payload = none := by
  refine ⟨by simp [dispatchStart, dispatchReports], ?_, ?_⟩
  · unfold dispatchStart dispatchReports
    have hfmt : formatReport .start ctx none (ReporterConfig.mqtt topic true) =
        ⟨.start, .message (interpolate ctx topic), none⟩ := rfl
    rw [← hfmt]
    exact List.mem_map_of_mem _ h
  · intro r hr
    unfold dispatchStart dispatchReports at hr
    obtain ⟨rc, _, rfl⟩ := List.mem_map.mp hr
    cases rc with
    | vote label value submit => rfl
    | mqtt t inc => cases inc <;> rfl

/-- The report context of the check-pipeline scenario. -/
def checkCtx : ReportCtx := ⟨"tenant-one", "check", "org/project", "master"⟩

theorem c7_witness :
    (dispatchStart checkCtx checkStartActions).length = checkStartActions.length ∧
    Report.mk .start (.message "tenant-one/zuul_start/check/org/project/master") none ∈
      dispatchStart checkCtx checkStartActions ∧
    ∀ r ∈ dispatchStart checkCtx checkStartActions, r.payload = none := by
  have h := c7_start_include_returned_data checkCtx checkStartActions
    "{tenant}/zuul_start/{pipeline}/{project}/{branch}" (by decide)
  refine ⟨h.1, ?_, h.2.2⟩
  have hi : interpolate checkCtx "{tenant}/zuul_start/{pipeline}/{project}/{branch}" =
      "tenant-one/zuul_start/check/org/project/master" := by decide
  have h2 := h.2.1
  rw [hi] at h2
  exact h2

/-- C8: for a completed item the aggregated result is `success` iff every
voting job succeeded; non-voting jobs are excluded from the determination
but still appear in the reported result data; the result is otherwise
`failure`. -/
theorem c8_aggregate_success_iff (jobs : List JobNode) (_hc : allTerminal jobs = true) :
    (aggregate jobs = .success ↔ ∀ jb ∈ jobs, jb.voting = true → jb.status = .succeeded) ∧
    (aggregate jobs = .success ∨ aggregate jobs = .failure) ∧
    ∀ jb ∈ jobs, (jb.name, jb.status) ∈ resultData jobs := by
  have key : aggregate jobs = .success ↔
      (jobs.all (fun jb => !jb.voting ||
        (match jb.status with | .succeeded => true | _ => false))) = true := by
    unfold aggregate
    cases hall : jobs.all (fun jb => !jb.voting ||
        (match jb.status with | .succeeded => true | _ => false)) <;> simp [hall]
  refine ⟨?_, ?_, ?_⟩
  · rw [key, List.all_eq_true]
    constructor
    · intro h jb hjb hv
      have := h jb hjb
      rw [hv] at this
      simp only [Bool.not_true, Bool.false_or] at this
      cases hst : jb.status <;> rw [hst] at this <;> first | rfl | exact Bool.noConfusion this
    · intro h jb hjb
      cases hv : jb.voting
      · simp
      · rw [h jb hjb hv]
        simp
  · unfold aggregate
    cases hall : jobs.all (fun jb => !jb.voting ||
        (match jb.status with | .succeeded => true | _ => false)) <;> simp [hall]
  · intro jb hjb
    exact List.mem_map_of_mem _ hjb

/-- A completed item with a succeeded voting job and a failed non-voting
job. -/
def c8Jobs : List JobNode :=
  [⟨"test", [], true, .succeeded⟩, ⟨"lint", [], false, .failed⟩]

theorem c8_witness :
    aggregate c8Jobs = .success ∧ ("lint", JStatus.failed) ∈ resultData c8Jobs := by
  have h := c8_aggregate_success_iff c8Jobs (by decide)
  exact ⟨h.1.mpr (by decide), h.2.2 ⟨"lint", [], false, .failed⟩ (by decide)⟩

/-- C9: `makeBuildQueryString` returns the base query string with
`&complete=true` always appended last, and `&exclude_result=SKIPPED`
appended before it exactly when `excludeResults` is truthy and no key of
the filters maps to the value `result`. -/
theorem c9_make_build_query_string (mqs : Filters → String) (filters : Filters)
    (excl : Bool) :
    ((excl = true ∧ ∀ kv ∈ filters.getD [], kv.2 ≠ "result") →
      makeBuildQueryString mqs filters excl =
        mqs filters ++ "&exclude_result=SKIPPED" ++ "&complete=true") ∧
    ((excl = false ∨ ∃ kv ∈ filters.getD [], kv.2 = "result") →
      makeBuildQueryString mqs filters excl = mqs filters ++ "&complete=true") := by
  constructor
  · rintro ⟨rfl, hno⟩
    unfold makeBuildQueryString
    cases filters with
    | none => simp
    | some fs =>
      have hany : fs.any (fun kv => kv.2 == "result") = false := by
        rw [List.any_eq_false]
        intro kv hkv
        simp only [beq_iff_eq]
        exact hno kv hkv
      simp [hany, String.append_assoc]
  · intro h
    rcases h with rfl | ⟨kv, hkv, hres⟩
    · unfold makeBuildQueryString
      cases filters <;> simp
    · have hfs : ∃ fs, filters = some fs := by
        cases hf : filters with
        | none => rw [hf] at hkv; cases hkv
        | some fs => exact ⟨fs, rfl⟩
      obtain ⟨fs, rfl⟩ := hfs
      have hany : fs.any (fun kv => kv.2 == "result") = true :=
        List.any_eq_true.mpr ⟨kv, hkv, by simp [hres]⟩
      unfold makeBuildQueryString
      simp [hany]

/-- A concrete base-query function standing in for the imported
`makeQueryString`. -/
def mqs0 : Filters → String := fun _ => "?job_name=unit"

theorem c9_witness :
    makeBuildQueryString mqs0 (some [("job_name", "unit")]) true =
      "?job_name=unit" ++ "&exclude_result=SKIPPED" ++ "&complete=true" ∧
    makeBuildQueryString mqs0 (some [("kind", "result")]) true =
      "?job_name=unit" ++ "&complete=true" :=
  ⟨(c9_make_build_query_string mqs0 (some [("job_name", "unit")]) true).1
     ⟨rfl, by decide⟩,
   (c9_make_build_query_string mqs0 (some [("kind", "result")]) true).2
     (Or.inr ⟨("kind", "result"), by decide, rfl⟩)⟩

/-- The build object refuting C10 as stated: `log_url` present but empty
(falsy in JavaScript) with `index_links` true. -/
def c10Bad : BuildObj := ⟨some "", some ⟨true⟩⟩

/-- C10 counterexample: with `log_url` present but equal to the empty
string and `manifest.index_links` true, the claim's case split predicts
`'' + 'index.html' = 'index.html'`, but the code's truthiness test on
`build.log_url` yields `''`. -/
theorem c10_counterexample :
    claim_build_log_url c10Bad ≠ build_log_url c10Bad ∧
    claim_build_log_url c10Bad = "index.html" ∧ build_log_url c10Bad = "" := by
  refine ⟨?_, rfl, rfl⟩
  intro h
  have : ("index.html" : String) = "" := h
  exact absurd (congrArg String.length this) (by decide)

/-- C10 (amended): the computed log link target equals
`log_url + 'index.html'` when `log_url` is truthy (present and nonempty)
and `index_links` is truthy, `log_url` when `log_url` is truthy and
`index_links` is falsy, and the empty string when `log_url` is absent or
empty; the `View log` external link is rendered iff `log_url` is truthy,
with `No log available` shown otherwise. -/
theorem c10_log_link_amended (b : BuildObj) :
    (b.log_url = none → build_log_url b = "") ∧
    (b.log_url = some "" → build_log_url b = "") ∧
    (∀ u, b.log_url = some u → u ≠ "" →
      build_log_url b = if index_links b then u ++ "index.html" else u) ∧
    (viewLogRendered b ↔ jsTruthy b.log_url) := by
  refine ⟨?_, ?_, ?_, ?_⟩
  · intro h
    unfold build_log_url
    rw [h]
  · intro h
    unfold build_log_url
    rw [h]
    simp
  · intro u h hne
    unfold build_log_url
    rw [h]
    show (if u = "" then "" else if index_links b = true then u ++ "index.html" else u) = _
    rw [if_neg hne]
  · unfold viewLogRendered jsTruthy build_log_url
    cases hl : b.log_url with
    | none => simp
    | some u =>
      show (if u = "" then "" else if index_links b = true then u ++ "index.html" else u)
        ≠ "" ↔ _
      by_cases hu : u = ""
      · subst hu
        simp
      · rw [if_neg hu]
        constructor
        · intro _
          exact ⟨u, rfl, hu⟩
        · intro _
          by_cases hil : index_links b
          · rw [if_pos hil]
            intro heq
            have hlen := congrArg String.length heq
            rw [String.length_append] at hlen
            have h10 : "index.html".length = 10 := rfl
            have h0 : "".length = 0 := rfl
            rw [h10, h0] at hlen
            omega
          · rw [if_neg hil]
            exact hu

/-- A build with a manifest offering index links and a real log url. -/
def c10Good : BuildObj := ⟨some "https://logs/", some ⟨true⟩⟩

theorem c10_witness :
    build_log_url c10Good = "https://logs/index.html" ∧ viewLogRendered c10Good := by
  have h := c10_log_link_amended c10Good
  constructor
  · have h3 := h.2.2.1 "https://logs/" rfl (by decide)
    rw [h3]
    decide
  · exact h.2.2.2.mpr ⟨"https://logs/", rfl, by decide⟩

/-- C1: when the item `x` of a dependent queue is determined to fail, the
queue collapses — every item `j` behind `x` is requeued before it can
ever report final success: `j` stays queued with its DAG instance reset
to `waiting` and its epoch bumped (so in-flight executor callbacks, which
are only consumed at the item's current epoch, are discarded), the
requeue is logged, and no success report for `j` exists in the log up to
and including this step — since the log is append-only, any eventual
final success report of `j` can only come after the requeue. -/
theorem c1_collapse_requeues_before_success (s : EngState) (hr : Reachable s)
    (l1 l2 : List QItem) (x : QItem) (hq : s.queue = l1 ++ x :: l2)
    (hfail : determinedToFail x.jobs = true) (j : QItem) (hj : j ∈ l2) :
    Step s (collapseState s l1 x l2) ∧
    resetItem j ∈ (collapseState s l1 x l2).queue ∧
    (∀ jb ∈ (resetItem j).jobs, jb.status = .waiting) ∧
    (resetItem j).epoch = j.epoch + 1 ∧ (resetItem j).id = j.id ∧
    Event.requeue j.id ∈ (collapseState s l1 x l2).log ∧
    Event.reportSuccess j.id ∉ s.log ∧
    Event.reportSuccess j.id ∉ (collapseState s l1 x l2).log := by
  have hinv := reachable_qinv hr
  have hjq : j ∈ s.queue := by
    rw [hq]
    exact List.mem_append_right _ (List.mem_cons_of_mem _ hj)
  have hnotin : Event.reportSuccess j.id ∉ (collapseState s l1 x l2).log := by
    intro hmem
    simp only [collapseState, List.mem_append, List.mem_cons] at hmem
    rcases hmem with hm | hm | hm
    · exact hinv.noSuccess j hjq hm
    · exact Event.noConfusion hm
    · obtain ⟨j2, _, heq⟩ := List.mem_map.mp hm
      exact Event.noConfusion heq
  refine ⟨Step.collapseFail s l1 x l2 hq hfail, ?_, ?_, rfl, rfl, ?_, ?_, hnotin⟩
  · simp only [collapseState, List.mem_append]
    exact Or.inr (List.mem_map_of_mem resetItem hj)
  · intro jb hjb
    obtain ⟨jb0, _, rfl⟩ := List.mem_map.mp hjb
    rfl
  · simp only [collapseState, List.mem_append, List.mem_cons]
    exact Or.inr (Or.inr (List.mem_map_of_mem (fun j => Event.requeue j.id) hj))
  · exact hinv.noSuccess j hjq

/-- C2: final success reports are emitted strictly in enqueue order —
whenever a reachable step emits the success report of item `x`, every
item `y` enqueued earlier (ids are assigned in enqueue order) has already
departed: its success, failure or removal is in the log before this
report. -/
theorem c2_success_reports_in_enqueue_order (s s' : EngState) (hr : Reachable s)
    (hstep : Step s s') (x : Nat) (hlog : s'.log = s.log ++ [Event.reportSuccess x])
    (y : Nat) (hy : Event.enqueued y ∈ s.log) (hlt : y < x) :
    Departed y s.log := by
  have hinv := reachable_qinv hr
  cases hstep with
  | enqueue jobs hw hnd =>
    exfalso
    have := List.append_cancel_left hlog
    exact Event.noConfusion (List.head_eq_of_cons_eq this)
  | markRunnable l1 it l2 n hq hst hdeps =>
    exfalso
    simp [midUpdate] at hlog
  | dispatch l1 it l2 n hq hst =>
    exfalso
    simp [midUpdate] at hlog
  | complete l1 it l2 n ok e hq hst hepoch =>
    exfalso
    simp [midUpdate] at hlog
  | skip l1 it l2 n d hq hst hd hdst =>
    exfalso
    simp [midUpdate] at hlog
  | collapseFail l1 x2 l2 hq hfail =>
    exfalso
    simp only [collapseState] at hlog
    have := List.append_cancel_left hlog
    exact Event.noConfusion (List.head_eq_of_cons_eq this)
  | remove l1 x2 l2 hq =>
    exfalso
    have := List.append_cancel_left hlog
    exact Event.noConfusion (List.head_eq_of_cons_eq this)
  | reportDone it rest hq hterm hagg =>
    have hxid : it.id = x := by
      have := List.append_cancel_left hlog
      have hh := List.head_eq_of_cons_eq this
      injection hh
    rcases hinv.departed y hy with hmem | hdep
    · exfalso
      rw [hq, List.map_cons, List.mem_cons] at hmem
      have hsorted := hinv.sorted
      rw [hq, List.map_cons] at hsorted
      obtain ⟨hlt2, _⟩ := List.pairwise_cons.mp hsorted
      rcases hmem with rfl | hmem
      · rw [hxid] at hlt
        exact Nat.lt_irrefl _ hlt
      · have := hlt2 y hmem
        rw [hxid] at this
        exact Nat.lt_irrefl _ (Nat.lt_trans this hlt)
    · exact hdep

/-- C3: a job is `running` in a reachable state only when every name in
its `dependencies` has actually reported `succeeded` inside the same
item's DAG — the cross-item speculative assumption about predecessors
never substitutes for an actually succeeded intra-item dependency. -/
theorem c3_running_requires_deps_succeeded (s : EngState) (hr : Reachable s)
    (it : QItem) (hit : it ∈ s.queue) (jb : JobNode) (hjb : jb ∈ it.jobs)
    (hst : jb.status = .running) :
    ∀ d ∈ jb.dependencies, statusOf it.jobs d = some .succeeded := by
  have hinv := reachable_qinv hr
  exact (hinv.items it hit).2 jb hjb (by rw [hst]; exact Or.inr (Or.inl rfl))

/-- The completed DAG of the check scenario: `test` failed and
`dependent-test` was skipped. -/
def c4Jobs : List JobNode :=
  [⟨"test", [], true, .failed⟩, ⟨"dependent-test", ["test"], true, .skipped⟩]

/-- C4: in every reachable state, once a job `f` of an item is `failed`,
every transitive dependent `a` of `f` is neither `running` nor
`succeeded` (it is never dispatched), and when the item completes `a` is
`skipped`; in the concrete check scenario, `test` failing leaves
`dependent-test` skipped, the aggregated result is `failure`, and the
failure reporters send the `Verified: -1` vote and the message-bus
publish with no result payload. -/
theorem c4_failed_dependency_forces_skip (s : EngState) (hr : Reachable s)
    (it : QItem) (hit : it ∈ s.queue) (f a : String)
    (hf : statusOf it.jobs f = some .failed)
    (ha : Relation.TransGen (DepOn it.jobs) a f) :
    (statusOf it.jobs a ≠ some .running ∧ statusOf it.jobs a ≠ some .succeeded ∧
      (allTerminal it.jobs = true → statusOf it.jobs a = some .skipped)) ∧
    (statusOf c4Jobs "dependent-test" = some .skipped ∧
     aggregate c4Jobs = .failure ∧
     dispatchReports .failure checkCtx checkFailureActions (some (resultData c4Jobs)) =
       [⟨.failure, .vote "Verified" (-1) false, none⟩,
        ⟨.failure, .message "tenant-one/zuul_buildset/check/org/project/master", none⟩]) := by
  have hinv := reachable_qinv hr
  obtain ⟨hnd, had⟩ := hinv.items it hit
  obtain ⟨c, hc, _⟩ := Relation.TransGen.head'_iff.mp ha
  obtain ⟨jb, hjb, hname, _⟩ := hc
  have hsa : statusOf it.jobs a = some jb.status := by
    have h0 := statusOf_eq_of_mem_nodup it.jobs hnd jb hjb
    rw [hname] at h0
    exact h0
  have hchain := activeDeps_trans_succeeded it.jobs hnd had a f ha jb hjb hname
  have hnotact : ¬ ActiveStatus jb.status := by
    intro hact
    have h1 := hchain hact
    rw [hf] at h1
    have h2 : JStatus.failed = JStatus.succeeded := by injection h1
    exact JStatus.noConfusion h2
  refine ⟨⟨?_, ?_, ?_⟩, by decide, by decide, by decide⟩
  · intro h
    rw [hsa] at h
    have h2 : jb.status = .running := by injection h
    exact hnotact (by rw [h2]; exact Or.inr (Or.inl rfl))
  · intro h
    rw [hsa] at h
    have h2 : jb.status = .succeeded := by injection h
    exact hnotact (by rw [h2]; exact Or.inr (Or.inr (Or.inl rfl)))
  · intro hterm
    have hterm2 := List.all_eq_true.mp hterm jb hjb
    rw [hsa]
    cases hjs : jb.status
    · rw [hjs] at hterm2
      exact absurd hterm2 (by decide)
    · exact absurd (by rw [hjs]; exact Or.inl rfl) hnotact
    · exact absurd (by rw [hjs]; exact Or.inr (Or.inl rfl)) hnotact
    · exact absurd (by rw [hjs]; exact Or.inr (Or.inr (Or.inl rfl))) hnotact
    · exact absurd (by rw [hjs]; exact Or.inr (Or.inr (Or.inr rfl))) hnotact
    · rfl

/-! ## Concrete scenario traces -/

/-- The check item after `test` succeeded and `dependent-test` was
dispatched. -/
def c3Jobs : List JobNode :=
  [⟨"test", [], true, .succeeded⟩, ⟨"dependent-test", ["test"], true, .running⟩]

/-- The check queue in which `dependent-test` runs after `test`
succeeded. -/
def c3State : EngState := ⟨[⟨0, c3Jobs, 0⟩], [.enqueued 0], 1⟩

theorem reachable_c3State : Reachable c3State := by
  have h0 := Reachable.init
  have h1 := Reachable.step h0 (Step.enqueue initState checkItemJobs (by decide) (by decide))
  have h2 := Reachable.step h1
    (Step.markRunnable _ [] ⟨0, checkItemJobs, 0⟩ [] "test" rfl (by decide) (by decide))
  have h3 := Reachable.step h2
    (Step.dispatch _ []
      ⟨0, [⟨"test", [], true, .runnable⟩, ⟨"dependent-test", ["test"], true, .waiting⟩], 0⟩
      [] "test" rfl (by decide))
  have h4 := Reachable.step h3
    (Step.complete _ []
      ⟨0, [⟨"test", [], true, .running⟩, ⟨"dependent-test", ["test"], true, .waiting⟩], 0⟩
      [] "test" true 0 rfl (by decide) rfl)
  have h5 := Reachable.step h4
    (Step.markRunnable _ []
      ⟨0, [⟨"test", [], true, .succeeded⟩, ⟨"dependent-test", ["test"], true, .waiting⟩], 0⟩
      [] "dependent-test" rfl (by decide) (by decide))
  have h6 := Reachable.step h5
    (Step.dispatch _ []
      ⟨0, [⟨"test", [], true, .succeeded⟩, ⟨"dependent-test", ["test"], true, .runnable⟩], 0⟩
      [] "dependent-test" rfl (by decide))
  exact h6

theorem c3_witness : statusOf c3Jobs "test" = some .succeeded :=
  c3_running_requires_deps_succeeded c3State reachable_c3State ⟨0, c3Jobs, 0⟩ (by decide)
    ⟨"dependent-test", ["test"], true, .running⟩ (by decide) rfl "test" (by decide)

/-- The check queue after `test` failed and `dependent-test` was skipped. -/
def c4State : EngState := ⟨[⟨0, c4Jobs, 0⟩], [.enqueued 0], 1⟩

theorem reachable_c4State : Reachable c4State := by
  have h0 := Reachable.init
  have h1 := Reachable.step h0 (Step.enqueue initState checkItemJobs (by decide) (by decide))
  have h2 := Reachable.step h1
    (Step.markRunnable _ [] ⟨0, checkItemJobs, 0⟩ [] "test" rfl (by decide) (by decide))
  have h3 := Reachable.step h2
    (Step.dispatch _ []
      ⟨0, [⟨"test", [], true, .runnable⟩, ⟨"dependent-test", ["test"], true, .waiting⟩], 0⟩
      [] "test" rfl (by decide))
  have h4 := Reachable.step h3
    (Step.complete _ []
      ⟨0, [⟨"test", [], true, .running⟩, ⟨"dependent-test", ["test"], true, .waiting⟩], 0⟩
      [] "test" false 0 rfl (by decide) rfl)
  have h5 := Reachable.step h4
    (Step.skip _ []
      ⟨0, [⟨"test", [], true, .failed⟩, ⟨"dependent-test", ["test"], true, .waiting⟩], 0⟩
      [] "dependent-test" "test" rfl (Or.inl (by decide)) (by decide) (Or.inl (by decide)))
  exact h5

theorem c4_witness :
    statusOf c4Jobs "dependent-test" = some .skipped ∧
    aggregate c4Jobs = .failure ∧
    dispatchReports .failure checkCtx checkFailureActions (some (resultData c4Jobs)) =
      [⟨.failure, .vote "Verified" (-1) false, none⟩,
       ⟨.failure, .message "tenant-one/zuul_buildset/check/org/project/master", none⟩] := by
  have h := c4_failed_dependency_forces_skip c4State reachable_c4State ⟨0, c4Jobs, 0⟩
    (by decide) "test" "dependent-test" (by decide)
    (Relation.TransGen.single
      ⟨⟨"dependent-test", ["test"], true, .skipped⟩, by decide, rfl, by decide⟩)
  exact ⟨h.1.2.2 (by decide), h.2.2⟩

/-- The failed head item of the gate scenario, its `integration` job
having reported failure. -/
def c1FailedItem : QItem := ⟨0, [⟨"integration", [], true, .failed⟩], 0⟩

/-- The second gate item, still running its `integration` job
speculatively behind the first. -/
def c1SpecItem : QItem := ⟨1, [⟨"integration", [], true, .running⟩], 0⟩

/-- The `integrated` gate queue right after the head item failed while
the item behind it runs speculatively. -/
def c1GateState : EngState :=
  ⟨[c1FailedItem, c1SpecItem], [.enqueued 0, .enqueued 1], 2⟩

theorem reachable_c1GateState : Reachable c1GateState := by
  have h0 := Reachable.init
  have h1 := Reachable.step h0 (Step.enqueue initState gateItemJobs (by decide) (by decide))
  have h2 := Reachable.step h1 (Step.enqueue _ gateItemJobs (by decide) (by decide))
  have h3 := Reachable.step h2
    (Step.markRunnable _ [] ⟨0, gateItemJobs, 0⟩ [⟨1, gateItemJobs, 0⟩] "integration"
      rfl (by decide) (by decide))
  have h4 := Reachable.step h3
    (Step.dispatch _ [] ⟨0, [⟨"integration", [], true, .runnable⟩], 0⟩
      [⟨1, gateItemJobs, 0⟩] "integration" rfl (by decide))
  have h5 := Reachable.step h4
    (Step.markRunnable _ [⟨0, [⟨"integration", [], true, .running⟩], 0⟩]
      ⟨1, gateItemJobs, 0⟩ [] "integration" rfl (by decide) (by decide))
  have h6 := Reachable.step h5
    (Step.dispatch _ [⟨0, [⟨"integration", [], true, .running⟩], 0⟩]
      ⟨1, [⟨"integration", [], true, .runnable⟩], 0⟩ [] "integration" rfl (by decide))
  have h7 := Reachable.step h6
    (Step.complete _ [] ⟨0, [⟨"integration", [], true, .running⟩], 0⟩ [c1SpecItem]
      "integration" false 0 rfl (by decide) rfl)
  exact h7

theorem c1_witness :
    Step c1GateState (collapseState c1GateState [] c1FailedItem [c1SpecItem]) ∧
    resetItem c1SpecItem ∈ (collapseState c1GateState [] c1FailedItem [c1SpecItem]).queue ∧
    (∀ jb ∈ (resetItem c1SpecItem).jobs, jb.status = .waiting) ∧
    (resetItem c1SpecItem).epoch = c1SpecItem.epoch + 1 ∧
    (resetItem c1SpecItem).id = c1SpecItem.id ∧
    Event.requeue c1SpecItem.id ∈
      (collapseState c1GateState [] c1FailedItem [c1SpecItem]).log ∧
    Event.reportSuccess c1SpecItem.id ∉ c1GateState.log ∧
    Event.reportSuccess c1SpecItem.id ∉
      (collapseState c1GateState [] c1FailedItem [c1SpecItem]).log :=
  c1_collapse_requeues_before_success c1GateState reachable_c1GateState [] [c1SpecItem]
    c1FailedItem rfl (by decide) c1SpecItem (by decide)

/-- The second gate item once its own `integration` job succeeded. -/
def c2Item1Done : QItem := ⟨1, [⟨"integration", [], true, .succeeded⟩], 0⟩

/-- The gate queue right before the second item's final success report:
the first item has already reported success in order. -/
def c2PreState : EngState :=
  ⟨[c2Item1Done], [.enqueued 0, .enqueued 1, .reportSuccess 0], 2⟩

theorem reachable_c2PreState : Reachable c2PreState := by
  have h0 := Reachable.init
  have h1 := Reachable.step h0 (Step.enqueue initState gateItemJobs (by decide) (by decide))
  have h2 := Reachable.step h1 (Step.enqueue _ gateItemJobs (by decide) (by decide))
  have h3 := Reachable.step h2
    (Step.markRunnable _ [] ⟨0, gateItemJobs, 0⟩ [⟨1, gateItemJobs, 0⟩] "integration"
      rfl (by decide) (by decide))
  have h4 := Reachable.step h3
    (Step.dispatch _ [] ⟨0, [⟨"integration", [], true, .runnable⟩], 0⟩
      [⟨1, gateItemJobs, 0⟩] "integration" rfl (by decide))
  have h5 := Reachable.step h4
    (Step.complete _ [] ⟨0, [⟨"integration", [], true, .running⟩], 0⟩
      [⟨1, gateItemJobs, 0⟩] "integration" true 0 rfl (by decide) rfl)
  have h6 := Reachable.step h5
    (Step.reportDone _ ⟨0, [⟨"integration", [], true, .succeeded⟩], 0⟩
      [⟨1, gateItemJobs, 0⟩] rfl (by decide) (by decide))
  have h7 := Reachable.step h6
    (Step.markRunnable _ [] ⟨1, gateItemJobs, 0⟩ [] "integration" rfl (by decide) (by decide))
  have h8 := Reachable.step h7
    (Step.dispatch _ [] ⟨1, [⟨"integration", [], true, .runnable⟩], 0⟩ [] "integration"
      rfl (by decide))
  have h9 := Reachable.step h8
    (Step.complete _ [] ⟨1, [⟨"integration", [], true, .running⟩], 0⟩ [] "integration"
      true 0 rfl (by decide) rfl)
  exact h9

theorem c2_witness : Departed 0 c2PreState.log := by
  have hstep : Step c2PreState ⟨[], c2PreState.log ++ [.reportSuccess 1], 2⟩ :=
    Step.reportDone c2PreState c2Item1Done [] rfl (by decide) (by decide)
  exact c2_success_reports_in_enqueue_order c2PreState _ reachable_c2PreState hstep 1 rfl
    0 (by decide) (by decide)
